import Mathlib

/-!
Verification of the client-side bookmarks browser (`bookmarks/app.js` and its
variant source file).  The JavaScript program is embedded shallowly: every
JavaScript function relevant to the claims is translated into a Lean
definition operating on explicit state, and JavaScript strings are modelled
by Lean `String` with hand-rolled, fully executable versions of the string
primitives the code uses (`toLowerCase`, `trim`, `includes`, `split`,
`localeCompare`-based sorting).
-/

namespace BookmarksApp

/-! ## JavaScript string and truthiness model -/

/-- JavaScript truthiness of a string: every string except the empty one. -/
def truthyStr (s : String) : Bool := !(s == "")

/-- JavaScript truthiness of a nullable string (`null`/`undefined` modelled as
`none`). -/
def truthyOpt : Option String → Bool
  | none => false
  | some s => truthyStr s

/-- JavaScript `x || null` on a nullable string: empty strings collapse to
`null`. -/
def jsOrNull (o : Option String) : Option String :=
  if truthyOpt o then o else none

/-- JavaScript `x || d` on a nullable string: the default is used when `x` is
absent or empty. -/
def jsOrStr (o : Option String) (d : String) : String :=
  if truthyOpt o then o.getD "" else d

/-- Model of `String.prototype.toLowerCase`, lowering each character. -/
def jsToLower (s : String) : String := String.mk (s.toList.map Char.toLower)

/-- Whitespace trimming on character lists, used to model
`String.prototype.trim`. -/
def trimChars (l : List Char) : List Char :=
  ((l.dropWhile Char.isWhitespace).reverse.dropWhile Char.isWhitespace).reverse

/-- Model of `String.prototype.trim`. -/
def jsTrim (s : String) : String := String.mk (trimChars s.toList)

/-- Does the character list `t` start with the character list `p`? -/
def startsWithChars : List Char → List Char → Bool
  | [], _ => true
  | _ :: _, [] => false
  | a :: as, b :: bs => a == b && startsWithChars as bs

/-- Does the character list `t` contain `p` as a contiguous run?  This is the
scan JavaScript's `String.prototype.includes` performs. -/
def includesChars (p : List Char) : List Char → Bool
  | [] => p.isEmpty
  | t@(_ :: rest) => startsWithChars p t || includesChars p rest

/-- Model of `s.includes(sub)`. -/
def jsIncludes (s sub : String) : Bool := includesChars sub.toList s.toList

/-- JavaScript `value.split(sep)` for a single-character separator, on
character lists.  `[] ↦ [[]]`, matching `''.split(',') === ['']`. -/
def splitChar (c : Char) : List Char → List (List Char)
  | [] => [[]]
  | a :: rest =>
    if a == c then [] :: splitChar c rest
    else
      match splitChar c rest with
      | [] => [[a]]
      | piece :: pieces => (a :: piece) :: pieces

/-- Model of `value.split(',')`. -/
def jsSplitComma (s : String) : List String :=
  (splitChar ',' s.toList).map String.mk

/-! ## Ordering model

`a.localeCompare(b)` with no locale argument is modelled as code-point
lexicographic comparison.  The claims only depend on it being a total
preorder used consistently by every sort in the program. -/

/-- Code-point lexicographic `≤` on character lists. -/
def lexLe : List Char → List Char → Bool
  | [], _ => true
  | _ :: _, [] => false
  | a :: as, b :: bs =>
    if a.val.toNat < b.val.toNat then true
    else if b.val.toNat < a.val.toNat then false
    else lexLe as bs

/-- Model of the comparator `(a, b) => a.localeCompare(b)` used by every sort
in the program: `strLe a b` holds when the comparator is `≤ 0`. -/
def strLe (a b : String) : Bool := lexLe a.toList b.toList

/-- Insert an element into a sorted list, after all elements that compare
`≤` to it — the stable insertion used to model `Array.prototype.sort`
(which is stable). -/
def insertSorted (le : α → α → Bool) (x : α) : List α → List α
  | [] => [x]
  | y :: ys => if le y x then y :: insertSorted le x ys else x :: y :: ys

/-- Stable insertion sort modelling `Array.prototype.sort(cmp)`. -/
def sortBy (le : α → α → Bool) : List α → List α
  | [] => []
  | x :: xs => insertSorted le x (sortBy le xs)

/-! ## Data model

A bookmark record as read from `bookmarks.json`: title, url, optional
description, optional category and section, and a list of tags.  Absent
fields are `none`. -/

structure Bookmark where
  title : String
  url : String
  description : Option String := none
  category : Option String := none
  «section» : Option String := none
  tags : List String := []
  deriving DecidableEq, Repr

/-- The mutable filter state of `app.js`: the module-level variables
`searchQuery`, `selectedTags` (a `Set`, modelled as an insertion-ordered
duplicate-free list), `selectedCategory` and `selectedSection`. -/
structure FilterState where
  searchQuery : String
  selectedTags : List String
  selectedCategory : Option String
  selectedSection : Option String
  deriving DecidableEq, Repr

/-- The initial filter state: empty query, no tags, both `selectedCategory`
and `selectedSection` null. -/
def initialState : FilterState :=
  { searchQuery := "", selectedTags := [],
    selectedCategory := none, selectedSection := none }

/-! ## The filter pipeline (`getFilteredBookmarks`)

`getFilteredBookmarks` in `app.js` applies four successive `filter` passes to
the global bookmark list: category, section (only when a category is
selected), free-text search, and tag intersection.  Each pass is embedded as
its own stage function. -/

/-- Stage 1 of `getFilteredBookmarks`: `if (selectedCategory) filtered =
filtered.filter(b => b.category === selectedCategory)`. -/
def categoryFilterStage (selectedCategory : Option String)
    (l : List Bookmark) : List Bookmark :=
  if truthyOpt selectedCategory then
    l.filter (fun b => b.category == selectedCategory)
  else l

/-- Stage 2 of `getFilteredBookmarks`: `if (selectedCategory &&
selectedSection) filtered = filtered.filter(b => b.section ===
selectedSection)`. -/
def sectionFilterStage (selectedCategory selectedSection : Option String)
    (l : List Bookmark) : List Bookmark :=
  if truthyOpt selectedCategory && truthyOpt selectedSection then
    l.filter (fun b => b.«section» == selectedSection)
  else l

/-- The predicate of the search `filter` pass, with `q` the lowercased
(untrimmed) query: title, url, description (guarded by its truthiness, as in
`b.description && b.description.toLowerCase().includes(q)`) or some tag
contains `q`. -/
def matchesSearch (q : String) (b : Bookmark) : Bool :=
  jsIncludes (jsToLower b.title) q ||
  jsIncludes (jsToLower b.url) q ||
  (truthyOpt b.description && jsIncludes (jsToLower (b.description.getD "")) q) ||
  b.tags.any (fun t => jsIncludes (jsToLower t) q)

/-- Stage 3 of `getFilteredBookmarks`: `if (searchQuery.trim()) { const q =
searchQuery.toLowerCase(); filtered = filtered.filter(...) }`. -/
def searchFilterStage (searchQuery : String) (l : List Bookmark) :
    List Bookmark :=
  if truthyStr (jsTrim searchQuery) then
    l.filter (matchesSearch (jsToLower searchQuery))
  else l

/-- Stage 4 of `getFilteredBookmarks`: `if (selectedTags.size > 0) filtered =
filtered.filter(b => [...selectedTags].every(tag => b.tags.includes(tag)))`. -/
def tagFilterStage (selectedTags : List String) (l : List Bookmark) :
    List Bookmark :=
  if selectedTags.length > 0 then
    l.filter (fun b => selectedTags.all (fun tag => b.tags.contains tag))
  else l

/-- `getFilteredBookmarks()` from `app.js`, as a function of the filter state
and the loaded bookmark list. -/
def getFilteredBookmarks (st : FilterState) (bookmarks : List Bookmark) :
    List Bookmark :=
  tagFilterStage st.selectedTags
    (searchFilterStage st.searchQuery
      (sectionFilterStage st.selectedCategory st.selectedSection
        (categoryFilterStage st.selectedCategory bookmarks)))

/-! ## Basic lemmas about the string model -/

theorem mk_eq_empty_iff (l : List Char) : String.mk l = "" ↔ l = [] := by
  constructor
  · intro h
    have h2 : (String.mk l).data = ("" : String).data := congrArg String.data h
    simpa using h2
  · intro h; subst h; rfl

theorem toList_eq_nil_iff (s : String) : s.toList = [] ↔ s = "" := by
  cases s with
  | mk data =>
    show data = [] ↔ String.mk data = ""
    exact (mk_eq_empty_iff data).symm

theorem jsTrim_ne_toList {s : String} (h : jsTrim s ≠ "") : s.toList ≠ [] := by
  intro hnil
  apply h
  rw [(toList_eq_nil_iff s).1 hnil]
  rfl

theorem jsToLower_toList (s : String) :
    (jsToLower s).toList = s.toList.map Char.toLower := rfl

theorem jsIncludes_empty_left {q : String} (h : q.toList ≠ []) :
    jsIncludes "" q = false := by
  unfold jsIncludes
  cases hq : q.toList with
  | nil => exact absurd hq h
  | cons a as => simp [includesChars, List.isEmpty]

/-! ## Claim C1: the free-text search filter -/

theorem descClause_iff {q : String} (hq : q.toList ≠ []) (d? : Option String) :
    ((truthyOpt d? && jsIncludes (jsToLower (d?.getD "")) q) = true) ↔
      ∃ d, d? = some d ∧ jsIncludes (jsToLower d) q = true := by
  cases d? with
  | none => simp [truthyOpt]
  | some d =>
    by_cases hd : d = ""
    · subst hd
      have hfalse : jsIncludes (jsToLower "") q = false := jsIncludes_empty_left hq
      simp [truthyOpt, truthyStr, hfalse]
    · simp [truthyOpt, truthyStr, hd]

theorem matchesSearch_iff {q : String} (hq : q.toList ≠ []) (b : Bookmark) :
    matchesSearch q b = true ↔
      (jsIncludes (jsToLower b.title) q = true ∨
       jsIncludes (jsToLower b.url) q = true ∨
       (∃ d, b.description = some d ∧ jsIncludes (jsToLower d) q = true) ∨
       (∃ t, t ∈ b.tags ∧ jsIncludes (jsToLower t) q = true)) := by
  unfold matchesSearch
  simp only [Bool.or_eq_true, List.any_eq_true, descClause_iff hq]
  rw [or_assoc, or_assoc]

theorem truthyStr_iff (s : String) : truthyStr s = true ↔ s ≠ "" := by
  simp [truthyStr]

/-- C1: for every bookmark list and query whose trimmed form is non-empty, the
search filter stage of `getFilteredBookmarks` retains a bookmark iff the
lowercased (untrimmed) query is a substring of the lowercased title, the
lowercased url, the lowercased description (when one is present), or the
lowercase form of at least one tag; when the trimmed query is empty the stage
retains every bookmark. -/
theorem searchFilter_spec (bl : List Bookmark) (query : String) :
    (jsTrim query ≠ "" →
      ∀ b : Bookmark, b ∈ searchFilterStage query bl ↔
        b ∈ bl ∧
          (jsIncludes (jsToLower b.title) (jsToLower query) = true ∨
           jsIncludes (jsToLower b.url) (jsToLower query) = true ∨
           (∃ d, b.description = some d ∧
              jsIncludes (jsToLower d) (jsToLower query) = true) ∨
           (∃ t, t ∈ b.tags ∧
              jsIncludes (jsToLower t) (jsToLower query) = true)))
    ∧ (jsTrim query = "" → searchFilterStage query bl = bl) := by
  constructor
  · intro hq b
    have hqlist : (jsToLower query).toList ≠ [] := by
      rw [jsToLower_toList]
      simpa using jsTrim_ne_toList hq
    unfold searchFilterStage
    rw [if_pos ((truthyStr_iff _).2 hq)]
    rw [List.mem_filter]
    exact and_congr_right fun _ => matchesSearch_iff hqlist b
  · intro hq
    unfold searchFilterStage
    rw [hq]
    simp [truthyStr]

/-- A sample bookmark used by witness theorems. -/
def sampleBookmark : Bookmark :=
  { title := "Lean Prover", url := "https://leanprover.github.io",
    description := some "Theorem proving", category := some "Dev",
    «section» := some "Tools", tags := ["lean", "proof"] }

/-- Witness for C1 at a concrete input. -/
theorem searchFilter_spec_witness :
    sampleBookmark ∈ searchFilterStage "LEAN" [sampleBookmark] :=
  ((searchFilter_spec [sampleBookmark] "LEAN").1 (by decide) sampleBookmark).mpr
    ⟨by decide, Or.inl (by decide)⟩

/-! ## Claim C2: the tag filter -/

/-- C2: with a non-empty selected tag set the tag filter stage retains a
bookmark iff every selected tag is among the bookmark's tags (AND semantics);
with no selected tags it retains every bookmark. -/
theorem tagFilter_spec (bl : List Bookmark) (selectedTags : List String) :
    (selectedTags ≠ [] →
      ∀ b : Bookmark, b ∈ tagFilterStage selectedTags bl ↔
        b ∈ bl ∧ ∀ tag ∈ selectedTags, tag ∈ b.tags)
    ∧ (selectedTags = [] → tagFilterStage selectedTags bl = bl) := by
  constructor
  · intro h b
    unfold tagFilterStage
    rw [if_pos (by
      cases selectedTags with
      | nil => exact absurd rfl h
      | cons x xs => simp)]
    rw [List.mem_filter]
    apply and_congr_right
    intro _
    simp [List.all_eq_true, List.contains, List.elem_iff]
  · intro h
    subst h
    simp [tagFilterStage]

/-- Witness for C2 at a concrete input. -/
theorem tagFilter_spec_witness :
    sampleBookmark ∈ tagFilterStage ["proof", "lean"] [sampleBookmark] :=
  ((tagFilter_spec [sampleBookmark] ["proof", "lean"]).1 (by decide)
      sampleBookmark).mpr ⟨by decide, by decide⟩

/-! ## Claim C9: the pipeline only removes elements -/

theorem categoryFilterStage_sublist (o : Option String) (l : List Bookmark) :
    (categoryFilterStage o l).Sublist l := by
  unfold categoryFilterStage
  split
  · exact List.filter_sublist l
  · exact List.Sublist.refl l

theorem sectionFilterStage_sublist (oc os : Option String) (l : List Bookmark) :
    (sectionFilterStage oc os l).Sublist l := by
  unfold sectionFilterStage
  split
  · exact List.filter_sublist l
  · exact List.Sublist.refl l

theorem searchFilterStage_sublist (q : String) (l : List Bookmark) :
    (searchFilterStage q l).Sublist l := by
  unfold searchFilterStage
  split
  · exact List.filter_sublist l
  · exact List.Sublist.refl l

theorem tagFilterStage_sublist (tags : List String) (l : List Bookmark) :
    (tagFilterStage tags l).Sublist l := by
  unfold tagFilterStage
  split
  · exact List.filter_sublist l
  · exact List.Sublist.refl l

/-- C9: `getFilteredBookmarks` always returns an order-preserving sublist of
the input list, and returns the input unchanged when no category is selected,
the trimmed query is empty and no tags are selected. -/
theorem getFilteredBookmarks_sublist (st : FilterState) (bl : List Bookmark) :
    (getFilteredBookmarks st bl).Sublist bl ∧
      (st.selectedCategory = none → jsTrim st.searchQuery = "" →
        st.selectedTags = [] → getFilteredBookmarks st bl = bl) := by
  constructor
  · exact ((tagFilterStage_sublist _ _).trans
      ((searchFilterStage_sublist _ _).trans
        ((sectionFilterStage_sublist _ _ _).trans
          (categoryFilterStage_sublist _ _))))
  · intro hc hq ht
    unfold getFilteredBookmarks
    rw [hc, ht]
    have h1 : categoryFilterStage none bl = bl := by
      simp [categoryFilterStage, truthyOpt]
    have h2 : sectionFilterStage none st.selectedSection bl = bl := by
      simp [sectionFilterStage, truthyOpt]
    have h3 : searchFilterStage st.searchQuery bl = bl := by
      unfold searchFilterStage
      rw [hq]
      simp [truthyStr]
    rw [h1, h2, h3]
    simp [tagFilterStage]

/-- Witness for C9's identity case at a concrete input. -/
theorem getFilteredBookmarks_sublist_witness :
    getFilteredBookmarks initialState [sampleBookmark] = [sampleBookmark] :=
  (getFilteredBookmarks_sublist initialState [sampleBookmark]).2 rfl rfl rfl

/-! ## JavaScript objects as association lists

Plain objects used as dictionaries (`counts` in `getTagCounts`, `grouped` in
`groupBookmarks`) are modelled as insertion-ordered association lists:
setting a present key updates it in place, setting a new key appends it. -/

/-- `m[k]` on an object: the value at the first matching key. -/
def lookupAssoc : List (String × α) → String → Option α
  | [], _ => none
  | (k, v) :: rest, key => if k = key then some v else lookupAssoc rest key

/-- `m[k] = v` on an object: update in place, or append a new key. -/
def setAssoc : List (String × α) → String → α → List (String × α)
  | [], key, v => [(key, v)]
  | (k, w) :: rest, key, v =>
    if k = key then (k, v) :: rest else (k, w) :: setAssoc rest key v

theorem lookupAssoc_setAssoc_self (m : List (String × α)) (k : String) (v : α) :
    lookupAssoc (setAssoc m k v) k = some v := by
  induction m with
  | nil => simp [setAssoc, lookupAssoc]
  | cons p rest ih =>
    by_cases h : p.1 = k
    · simp [setAssoc, lookupAssoc, h]
    · simp [setAssoc, lookupAssoc, h, ih]

theorem lookupAssoc_setAssoc_ne (m : List (String × α)) (k k' : String) (v : α)
    (h : k ≠ k') : lookupAssoc (setAssoc m k v) k' = lookupAssoc m k' := by
  induction m with
  | nil => simp [setAssoc, lookupAssoc, h]
  | cons p rest ih =>
    by_cases hp : p.1 = k
    · simp [setAssoc, lookupAssoc, hp, h]
    · simp [setAssoc, lookupAssoc, hp, ih]

theorem mem_keys_iff_lookupAssoc (m : List (String × α)) (k : String) :
    k ∈ m.map Prod.fst ↔ lookupAssoc m k ≠ none := by
  induction m with
  | nil => simp [lookupAssoc]
  | cons p rest ih =>
    by_cases h : p.1 = k
    · simp [lookupAssoc, h]
    · simp [lookupAssoc, h, ih, Ne.symm h]

theorem lookupAssoc_mem {m : List (String × α)} {k : String} {v : α}
    (h : lookupAssoc m k = some v) : (k, v) ∈ m := by
  induction m with
  | nil => simp [lookupAssoc] at h
  | cons p rest ih =>
    by_cases hp : p.1 = k
    · rw [lookupAssoc, if_pos hp] at h
      cases p with
      | mk k' v' =>
        obtain ⟨rfl⟩ : v' = v := by simpa using h
        simp at hp
        subst hp
        exact List.mem_cons_self _ _
    · rw [lookupAssoc, if_neg hp] at h
      exact List.mem_cons_of_mem _ (ih h)

theorem mem_setAssoc {m : List (String × α)} {k : String} {v : α} {p}
    (h : p ∈ setAssoc m k v) : p ∈ m ∨ p = (k, v) := by
  induction m with
  | nil => simpa [setAssoc] using h
  | cons q rest ih =>
    by_cases hq : q.1 = k
    · rw [setAssoc, if_pos hq] at h
      rcases List.mem_cons.1 h with h1 | h1
      · right
        cases q with
        | mk k' w => simp at hq; subst hq; simpa using h1
      · exact Or.inl (List.mem_cons_of_mem _ h1)
    · rw [setAssoc, if_neg hq] at h
      rcases List.mem_cons.1 h with h1 | h1
      · exact Or.inl (h1 ▸ List.mem_cons_self _ _)
      · rcases ih h1 with h2 | h2
        · exact Or.inl (List.mem_cons_of_mem _ h2)
        · exact Or.inr h2

/-! ## Claim C6: `getTagCounts` -/

/-- One step of the inner loop of `getTagCounts`:
`counts[tag] = (counts[tag] || 0) + 1`. -/
def bumpTag (counts : List (String × Nat)) (tag : String) :
    List (String × Nat) :=
  setAssoc counts tag ((lookupAssoc counts tag).getD 0 + 1)

/-- `getTagCounts(bookmarkList)` from `app.js`. -/
def getTagCounts (bookmarkList : List Bookmark) : List (String × Nat) :=
  bookmarkList.foldl (fun counts b => b.tags.foldl bumpTag counts) []

/-- The stored count of `tag`, defaulting to `0` (`counts[tag] || 0`). -/
def countVal (m : List (String × Nat)) (tag : String) : Nat :=
  (lookupAssoc m tag).getD 0

/-- Total number of occurrences of `tag` across the tag lists of `bl`. -/
def totalOcc (bl : List Bookmark) (tag : String) : Nat :=
  (bl.map (fun b => b.tags.count tag)).sum

theorem countVal_bumpTag (m : List (String × Nat)) (t tag : String) :
    countVal (bumpTag m t) tag =
      countVal m tag + (if t = tag then 1 else 0) := by
  by_cases h : t = tag
  · subst h
    simp [countVal, bumpTag, lookupAssoc_setAssoc_self]
  · simp [countVal, bumpTag, lookupAssoc_setAssoc_ne _ _ _ _ h, h]

theorem countVal_foldl_bumpTag (tags : List String)
    (m : List (String × Nat)) (tag : String) :
    countVal (tags.foldl bumpTag m) tag = countVal m tag + tags.count tag := by
  induction tags generalizing m with
  | nil => simp
  | cons t ts ih =>
    rw [List.foldl_cons, ih, countVal_bumpTag, List.count_cons]
    simp only [beq_iff_eq]
    omega

theorem countVal_getTagCounts_aux (bl : List Bookmark)
    (m : List (String × Nat)) (tag : String) :
    countVal (bl.foldl (fun counts b => b.tags.foldl bumpTag counts) m) tag =
      countVal m tag + totalOcc bl tag := by
  induction bl generalizing m with
  | nil => simp [totalOcc]
  | cons b rest ih =>
    rw [List.foldl_cons, ih, countVal_foldl_bumpTag]
    simp [totalOcc]
    omega

/-- Every stored count is positive. -/
def allPos (m : List (String × Nat)) : Prop := ∀ p ∈ m, 0 < p.2

theorem allPos_bumpTag {m : List (String × Nat)} (hm : allPos m)
    (t : String) : allPos (bumpTag m t) := by
  intro p hp
  rcases mem_setAssoc hp with h | h
  · exact hm p h
  · subst h
    exact Nat.succ_pos _

theorem allPos_foldl_bumpTag {m : List (String × Nat)} (hm : allPos m)
    (tags : List String) : allPos (tags.foldl bumpTag m) := by
  induction tags generalizing m with
  | nil => exact hm
  | cons t ts ih => exact ih (allPos_bumpTag hm t)

theorem allPos_getTagCounts (bl : List Bookmark) : allPos (getTagCounts bl) := by
  suffices h : ∀ m : List (String × Nat), allPos m →
      allPos (bl.foldl (fun counts b => b.tags.foldl bumpTag counts) m) by
    exact h [] (by intro p hp; simp at hp)
  induction bl with
  | nil => intro m hm; exact hm
  | cons b rest ih =>
    intro m hm
    exact ih _ (allPos_foldl_bumpTag hm b.tags)

theorem lookupAssoc_getTagCounts (bl : List Bookmark) (tag : String) :
    lookupAssoc (getTagCounts bl) tag =
      if totalOcc bl tag = 0 then none else some (totalOcc bl tag) := by
  have hcv : countVal (getTagCounts bl) tag = totalOcc bl tag := by
    have := countVal_getTagCounts_aux bl [] tag
    simpa [getTagCounts, countVal, lookupAssoc] using this
  cases hlk : lookupAssoc (getTagCounts bl) tag with
  | none =>
    have h0 : totalOcc bl tag = 0 := by
      rw [← hcv]
      simp [countVal, hlk]
    rw [if_pos h0]
  | some v =>
    have hv : v = totalOcc bl tag := by
      rw [← hcv]
      simp [countVal, hlk]
    have hpos : 0 < v := allPos_getTagCounts bl (tag, v) (lookupAssoc_mem hlk)
    rw [if_neg (by omega)]
    rw [hv]

theorem totalOcc_eq_countP (bl : List Bookmark)
    (h : ∀ b ∈ bl, b.tags.Nodup) (tag : String) :
    totalOcc bl tag = bl.countP (fun b => b.tags.contains tag) := by
  induction bl with
  | nil => simp [totalOcc]
  | cons b rest ih =>
    have hb : b.tags.Nodup := h b (List.mem_cons_self _ _)
    have hrest := ih (fun b' hb' => h b' (List.mem_cons_of_mem _ hb'))
    rw [List.countP_cons]
    by_cases hmem : tag ∈ b.tags
    · have hc : b.tags.count tag = 1 := List.count_eq_one_of_mem hb hmem
      simp only [totalOcc, List.map_cons, List.sum_cons] at *
      rw [hc, hrest]
      simp [List.contains, List.elem_iff, hmem]
      omega
    · have hc : b.tags.count tag = 0 := List.count_eq_zero.2 hmem
      simp only [totalOcc, List.map_cons, List.sum_cons] at *
      rw [hc, hrest]
      simp [List.contains, List.elem_iff, hmem]

theorem totalOcc_eq_zero_iff (bl : List Bookmark) (tag : String) :
    totalOcc bl tag = 0 ↔ ¬ ∃ b ∈ bl, tag ∈ b.tags := by
  rw [totalOcc, List.sum_eq_zero_iff]
  constructor
  · rintro h ⟨b, hb, htag⟩
    have := h (b.tags.count tag) (List.mem_map_of_mem _ hb)
    rw [List.count_eq_zero] at this
    exact this htag
  · intro h x hx
    rcases List.mem_map.1 hx with ⟨b, hb, rfl⟩
    rw [List.count_eq_zero]
    intro htag
    exact h ⟨b, hb, htag⟩

/-- C6: for a bookmark list whose bookmarks each carry duplicate-free tags,
`getTagCounts` has as keys exactly the tags occurring in the list and maps
each tag to the number of bookmarks whose tag list contains it. -/
theorem getTagCounts_spec (bl : List Bookmark)
    (h : ∀ b ∈ bl, b.tags.Nodup) :
    ∀ tag : String,
      (tag ∈ (getTagCounts bl).map Prod.fst ↔ ∃ b ∈ bl, tag ∈ b.tags) ∧
      lookupAssoc (getTagCounts bl) tag =
        (if bl.countP (fun b => b.tags.contains tag) = 0 then none
         else some (bl.countP (fun b => b.tags.contains tag))) := by
  intro tag
  have hkey := mem_keys_iff_lookupAssoc (getTagCounts bl) tag
  have hlk := lookupAssoc_getTagCounts bl tag
  have hcp := totalOcc_eq_countP bl h tag
  constructor
  · rw [hkey, hlk]
    by_cases h0 : ∃ b ∈ bl, tag ∈ b.tags
    · have hne : totalOcc bl tag ≠ 0 := by
        rw [Ne, totalOcc_eq_zero_iff]
        simpa using h0
      simp [hne, h0]
    · have hz : totalOcc bl tag = 0 :=
        (totalOcc_eq_zero_iff bl tag).2 (by simpa using h0)
      simp [hz, h0]
  · rw [hlk, hcp]

/-- Witness for C6 at a concrete input. -/
theorem getTagCounts_spec_witness :
    "lean" ∈ (getTagCounts [sampleBookmark]).map Prod.fst ∧
      lookupAssoc (getTagCounts [sampleBookmark]) "lean" = some 1 :=
  ⟨((getTagCounts_spec [sampleBookmark] (by decide) "lean").1).mpr
      ⟨sampleBookmark, by decide, by decide⟩,
    by
      rw [(getTagCounts_spec [sampleBookmark] (by decide) "lean").2]
      decide⟩

/-! ## Claim C5: `groupBookmarks` -/

/-- The value stored per category by `groupBookmarks`:
`{ noSection: [], sections: {} }`. -/
structure CatGroup where
  noSection : List Bookmark
  sections : List (String × List Bookmark)
  deriving DecidableEq, Repr

def emptyGroup : CatGroup := { noSection := [], sections := [] }

/-- `const cat = b.category || 'Uncategorized'`. -/
def jsCat (b : Bookmark) : String := jsOrStr b.category "Uncategorized"

/-- `const sec = b.section || ''`. -/
def jsSec (b : Bookmark) : String := jsOrStr b.«section» ""

/-- The new value of `grouped[cat]` after the `forEach` body of
`groupBookmarks` ran for `b`: starting from the existing entry (or the fresh
`{ noSection: [], sections: {} }`), push `b` onto `sections[sec]` when the
effective section is non-empty, onto `noSection` otherwise. -/
def updatedGroup (grouped : List (String × CatGroup)) (b : Bookmark) :
    CatGroup :=
  let cg := (lookupAssoc grouped (jsCat b)).getD emptyGroup
  if jsSec b ≠ "" then
    { cg with sections := setAssoc cg.sections (jsSec b) ((lookupAssoc cg.sections (jsSec b)).getD [] ++ [b]) }
  else
    { cg with noSection := cg.noSection ++ [b] }

/-- The body of the `forEach` loop of `groupBookmarks`: ensure the category
entry exists, then push `b` into `sections[sec]` or `noSection`. -/
def addToGroup (grouped : List (String × CatGroup)) (b : Bookmark) :
    List (String × CatGroup) :=
  setAssoc grouped (jsCat b) (updatedGroup grouped b)

/-- `groupBookmarks(bookmarkList)` from `app.js`. -/
def groupBookmarks (bookmarkList : List Bookmark) : List (String × CatGroup) :=
  bookmarkList.foldl addToGroup []

/-- Read one group out of the grouping object: `grouped[cat].noSection` when
`sec` is empty, `grouped[cat].sections[sec]` otherwise; `[]` when absent. -/
def groupAt (grouped : List (String × CatGroup)) (cat sec : String) :
    List Bookmark :=
  match lookupAssoc grouped cat with
  | none => []
  | some cg =>
    if sec = "" then cg.noSection else (lookupAssoc cg.sections sec).getD []

theorem groupAt_addToGroup (g : List (String × CatGroup)) (b : Bookmark)
    (cat sec : String) :
    groupAt (addToGroup g b) cat sec =
      groupAt g cat sec ++
        (if jsCat b = cat ∧ jsSec b = sec then [b] else []) := by
  by_cases hcat : jsCat b = cat
  · subst hcat
    unfold groupAt addToGroup
    rw [lookupAssoc_setAssoc_self]
    unfold updatedGroup
    cases hg : lookupAssoc g (jsCat b) with
    | none =>
      by_cases hsec : jsSec b = ""
      · by_cases hs : sec = ""
        · subst hs
          simp [hsec, emptyGroup]
        · simp [hsec, hs, emptyGroup, lookupAssoc, Ne.symm hs]
      · by_cases hs : sec = ""
        · subst hs
          simp [hsec, emptyGroup]
        · by_cases hss : jsSec b = sec
          · subst hss
            simp [hsec, hs, emptyGroup, lookupAssoc]
          · simp [hsec, hs, hss, emptyGroup, lookupAssoc,
              lookupAssoc_setAssoc_ne _ _ _ _ hss]
    | some cg =>
      by_cases hsec : jsSec b = ""
      · by_cases hs : sec = ""
        · subst hs
          simp [hsec]
        · simp [hsec, hs, Ne.symm hs]
      · by_cases hs : sec = ""
        · subst hs
          simp [hsec]
        · by_cases hss : jsSec b = sec
          · subst hss
            simp [hsec, hs, lookupAssoc_setAssoc_self]
          · simp [hsec, hs, hss, lookupAssoc_setAssoc_ne _ _ _ _ hss]
  · unfold groupAt addToGroup
    rw [lookupAssoc_setAssoc_ne _ _ _ _ hcat]
    simp [hcat]

theorem groupAt_foldl (l : List Bookmark) (g : List (String × CatGroup))
    (cat sec : String) :
    groupAt (l.foldl addToGroup g) cat sec =
      groupAt g cat sec ++
        l.filter (fun b => jsCat b == cat && jsSec b == sec) := by
  induction l generalizing g with
  | nil => simp
  | cons b rest ih =>
    rw [List.foldl_cons, ih, groupAt_addToGroup, List.filter_cons]
    by_cases h : jsCat b = cat ∧ jsSec b = sec
    · simp [h.1, h.2, List.append_assoc]
    · have hb : (jsCat b == cat && jsSec b == sec) = false := by
        rcases not_and_or.1 h with h1 | h1 <;> simp [h1]
      simp [h, hb]

/-- C5: `groupBookmarks` partitions its input.  For every pair of a category
name and a section name, the group stored there (`noSection` for the empty
section name, `sections[sec]` otherwise) is exactly the sublist of input
bookmarks whose effective category (`b.category || 'Uncategorized'`) and
effective section (`b.section || ''`) are that pair; hence every input
bookmark appears in exactly the one group given by its own effective
category and section, and no other bookmark appears anywhere. -/
theorem groupBookmarks_partition (bl : List Bookmark) :
    ∀ cat sec : String,
      (groupAt (groupBookmarks bl) cat sec =
        bl.filter (fun b => jsCat b == cat && jsSec b == sec)) ∧
      (∀ b : Bookmark, b ∈ groupAt (groupBookmarks bl) cat sec ↔
        b ∈ bl ∧ jsCat b = cat ∧ jsSec b = sec) := by
  intro cat sec
  have hmain : groupAt (groupBookmarks bl) cat sec =
      bl.filter (fun b => jsCat b == cat && jsSec b == sec) := by
    have h := groupAt_foldl bl [] cat sec
    rw [groupBookmarks]
    rw [h]
    simp [groupAt, lookupAssoc]
  refine ⟨hmain, fun b => ?_⟩
  rw [hmain, List.mem_filter]
  simp

/-! ## Sortedness lemmas for the `Array.prototype.sort` model -/

theorem mem_insertSorted (le : α → α → Bool) (x : α) (l : List α) (a : α) :
    a ∈ insertSorted le x l ↔ a = x ∨ a ∈ l := by
  induction l with
  | nil => simp [insertSorted]
  | cons y ys ih =>
    unfold insertSorted
    split
    · simp only [List.mem_cons, ih]
      tauto
    · simp

theorem mem_sortBy (le : α → α → Bool) (l : List α) (a : α) :
    a ∈ sortBy le l ↔ a ∈ l := by
  induction l with
  | nil => simp [sortBy]
  | cons x xs ih => simp [sortBy, mem_insertSorted, ih]

theorem pairwise_insertSorted (le : α → α → Bool)
    (total : ∀ a b, le a b = true ∨ le b a = true)
    (trans : ∀ a b c, le a b = true → le b c = true → le a c = true)
    (x : α) (l : List α)
    (h : l.Pairwise (fun a b => le a b = true)) :
    (insertSorted le x l).Pairwise (fun a b => le a b = true) := by
  induction l with
  | nil => simp [insertSorted]
  | cons y ys ih =>
    rcases List.pairwise_cons.1 h with ⟨hy, hys⟩
    unfold insertSorted
    split
    case isTrue hle =>
      refine List.pairwise_cons.2 ⟨?_, ih hys⟩
      intro a ha
      rcases (mem_insertSorted le x ys a).1 ha with rfl | ha
      · exact hle
      · exact hy a ha
    case isFalse hle =>
      have hxy : le x y = true := by
        rcases total x y with h1 | h1
        · exact h1
        · exact absurd h1 hle
      refine List.pairwise_cons.2 ⟨?_, h⟩
      intro a ha
      rcases List.mem_cons.1 ha with rfl | ha
      · exact hxy
      · exact trans x y a hxy (hy a ha)

theorem pairwise_sortBy (le : α → α → Bool)
    (total : ∀ a b, le a b = true ∨ le b a = true)
    (trans : ∀ a b c, le a b = true → le b c = true → le a c = true)
    (l : List α) :
    (sortBy le l).Pairwise (fun a b => le a b = true) := by
  induction l with
  | nil => simp [sortBy]
  | cons x xs ih => exact pairwise_insertSorted le total trans x _ ih

theorem lexLe_total (a b : List Char) : lexLe a b = true ∨ lexLe b a = true := by
  induction a generalizing b with
  | nil => left; rfl
  | cons x xs ih =>
    cases b with
    | nil => right; rfl
    | cons y ys =>
      unfold lexLe
      by_cases h1 : x.val.toNat < y.val.toNat
      · left
        simp [h1]
      · by_cases h2 : y.val.toNat < x.val.toNat
        · right
          simp [h2]
        · simpa [h1, h2] using ih ys

theorem lexLe_trans {a b c : List Char} (h1 : lexLe a b = true)
    (h2 : lexLe b c = true) : lexLe a c = true := by
  induction a generalizing b c with
  | nil => rfl
  | cons x xs ih =>
    cases b with
    | nil => simp [lexLe] at h1
    | cons y ys =>
      cases c with
      | nil => simp [lexLe] at h2
      | cons z zs =>
        unfold lexLe at h1 h2 ⊢
        by_cases hxy : x.val.toNat < y.val.toNat
        · by_cases hyz : y.val.toNat < z.val.toNat
          · simp [show x.val.toNat < z.val.toNat from Nat.lt_trans hxy hyz]
          · by_cases hzy : z.val.toNat < y.val.toNat
            · simp [hyz, hzy] at h2
            · have hx : x.val.toNat < z.val.toNat := by omega
              simp [hx]
        · by_cases hyx : y.val.toNat < x.val.toNat
          · simp [hxy, hyx] at h1
          · by_cases hyz : y.val.toNat < z.val.toNat
            · have hx : x.val.toNat < z.val.toNat := by omega
              simp [hx]
            · by_cases hzy : z.val.toNat < y.val.toNat
              · simp [hyz, hzy] at h2
              · have hxz : ¬ x.val.toNat < z.val.toNat := by omega
                have hzx : ¬ z.val.toNat < x.val.toNat := by omega
                rw [if_neg hxy, if_neg hyx] at h1
                rw [if_neg hyz, if_neg hzy] at h2
                rw [if_neg hxz, if_neg hzx]
                exact ih h1 h2

theorem strLe_total (a b : String) : strLe a b = true ∨ strLe b a = true :=
  lexLe_total a.toList b.toList

theorem strLe_trans (a b c : String) (h1 : strLe a b = true)
    (h2 : strLe b c = true) : strLe a c = true :=
  lexLe_trans h1 h2

/-- `[...xs].sort((a, b) => a.localeCompare(b))` on strings. -/
def sortStrings (l : List String) : List String := sortBy strLe l

/-- `list.sort((a, b) => a.title.localeCompare(b.title))` on bookmarks. -/
def sortByTitle (l : List Bookmark) : List Bookmark :=
  sortBy (fun a b => strLe a.title b.title) l

theorem pairwise_sortStrings (l : List String) :
    (sortStrings l).Pairwise (fun a b => strLe a b = true) :=
  pairwise_sortBy strLe strLe_total strLe_trans l

theorem pairwise_sortByTitle (l : List Bookmark) :
    (sortByTitle l).Pairwise (fun a b => strLe a.title b.title = true) :=
  pairwise_sortBy (fun a b => strLe a.title b.title)
    (fun a b => strLe_total a.title b.title)
    (fun a b c h1 h2 => strLe_trans a.title b.title c.title h1 h2) l

/-! ## Claim C8: the emission order of `renderBookmarks`

`renderBookmarks` computes `groupBookmarks(filtered)`, walks its keys in
sorted order, emits the sorted `noSection` bookmarks first and then each
sorted section with its sorted bookmarks.  `renderOrder` is that emission
order: one entry per category, holding the `noSection` block followed by the
section blocks. -/

def renderOrder (filtered : List Bookmark) :
    List (String × List Bookmark × List (String × List Bookmark)) :=
  let grouped := groupBookmarks filtered
  (sortStrings (grouped.map Prod.fst)).map (fun category =>
    let catData := (lookupAssoc grouped category).getD emptyGroup
    (category,
      sortByTitle catData.noSection,
      (sortStrings (catData.sections.map Prod.fst)).map (fun s =>
        (s, sortByTitle ((lookupAssoc catData.sections s).getD [])))))

/-- C8: `renderBookmarks` emits category groups in ascending comparator
order; within each category the section-less bookmarks come first sorted by
title, then the sections in ascending comparator order, each with its
bookmarks sorted by title. -/
theorem renderBookmarks_order (filtered : List Bookmark) :
    ((renderOrder filtered).map Prod.fst).Pairwise
      (fun a b => strLe a b = true) ∧
    ∀ e ∈ renderOrder filtered,
      e.2.1.Pairwise (fun a b => strLe a.title b.title = true) ∧
      (e.2.2.map Prod.fst).Pairwise (fun a b => strLe a b = true) ∧
      ∀ s ∈ e.2.2, s.2.Pairwise (fun a b => strLe a.title b.title = true) := by
  constructor
  · simp only [renderOrder]
    rw [List.pairwise_map, List.pairwise_map]
    exact pairwise_sortStrings _
  · intro e he
    simp only [renderOrder, List.mem_map] at he
    obtain ⟨category, hcatmem, rfl⟩ := he
    refine ⟨pairwise_sortByTitle _, ?_, ?_⟩
    · rw [List.pairwise_map, List.pairwise_map]
      exact pairwise_sortStrings _
    · intro s hs
      simp only [List.mem_map] at hs
      obtain ⟨name, hmem, rfl⟩ := hs
      exact pairwise_sortByTitle _

/-! ## URL query parameters (`URLSearchParams`)

`URLSearchParams` is modelled at the level of its entry list: an ordered list
of key/value pairs.  `toString`/re-parsing round-trips this list exactly
(percent-encoding is injective), so serialisation is left implicit. -/

/-- `params.get(k)`: the first value stored for the key, `null` if absent. -/
def paramsGet (params : List (String × String)) (k : String) : Option String :=
  lookupAssoc params k

/-- `params.getAll(k)`: every value stored for the key, in order. -/
def paramsGetAll (params : List (String × String)) (k : String) : List String :=
  params.filterMap (fun p => if p.1 = k then some p.2 else none)

/-- `Set.prototype.add`: insertion-ordered, ignores an already-present
element. -/
def addSet (s : List String) (x : String) : List String :=
  if x ∈ s then s else s ++ [x]

/-- Body of the tag-parsing loop of `applyFiltersFromURL`:
`const trimmed = tag.trim(); if (trimmed) parsedTags.add(trimmed)`. -/
def addParsedTag (acc : List String) (tag : String) : List String :=
  let trimmed := jsTrim tag
  if truthyStr trimmed then addSet acc trimmed else acc

/-- `applyFiltersFromURL()` from `app.js`, as a function from the parsed
query parameters to the filter state it installs (every one of the four
state variables is overwritten unconditionally). -/
def applyFiltersFromURL (params : List (String × String)) : FilterState :=
  let queryParam := jsOrStr (paramsGet params "q") ""
  let selectedCategory := jsOrNull (paramsGet params "category")
  let selectedSection0 := jsOrNull (paramsGet params "section")
  let selectedSection :=
    if truthyOpt selectedSection0 && !truthyOpt selectedCategory then none
    else selectedSection0
  let tagValues := paramsGetAll params "tag"
  let selectedTags :=
    tagValues.foldl
      (fun acc value => (jsSplitComma value).foldl addParsedTag acc) []
  { searchQuery := queryParam, selectedTags := selectedTags,
    selectedCategory := selectedCategory, selectedSection := selectedSection }

/-- `updateURLParams()` from `app.js`: the parameter list it serialises from
the filter state (`q` for a non-empty trimmed query, then `category`,
`section`, then one `tag` entry per selected tag in sorted order). -/
def updateURLParams (st : FilterState) : List (String × String) :=
  (if truthyStr (jsTrim st.searchQuery) then [("q", jsTrim st.searchQuery)]
   else [])
  ++ (if truthyOpt st.selectedCategory then
        [("category", st.selectedCategory.getD "")]
      else [])
  ++ (if truthyOpt st.selectedSection then
        [("section", st.selectedSection.getD "")]
      else [])
  ++ (if st.selectedTags.length > 0 then
        (sortStrings st.selectedTags).map (fun tag => ("tag", tag))
      else [])

theorem lookupAssoc_append (l1 l2 : List (String × α)) (k : String) :
    lookupAssoc (l1 ++ l2) k =
      match lookupAssoc l1 k with
      | some v => some v
      | none => lookupAssoc l2 k := by
  induction l1 with
  | nil => simp [lookupAssoc]
  | cons p rest ih =>
    by_cases h : p.1 = k <;> simp [lookupAssoc, h, ih]

theorem lookupAssoc_map_const_key (l : List String) (key k : String)
    (h : key ≠ k) : lookupAssoc (l.map (fun t => (key, t))) k = none := by
  induction l with
  | nil => rfl
  | cons x xs ih => simp [lookupAssoc, h, ih]

theorem getAll_map_const_key (l : List String) (key : String) :
    (l.map (fun t => (key, t))).filterMap
      (fun p => if p.1 = key then some p.2 else none) = l := by
  induction l with
  | nil => rfl
  | cons x xs ih => simp [ih]

theorem filterMap_comp_const_key (l : List String) (key : String) :
    List.filterMap
      ((fun p : String × String => if p.1 = key then some p.2 else none) ∘
        fun t => (key, t)) l = l := by
  induction l with
  | nil => rfl
  | cons x xs ih =>
    rw [List.filterMap_cons]
    simp [Function.comp, ih]

theorem updateURLParams_get_q (st : FilterState) :
    paramsGet (updateURLParams st) "q" =
      if truthyStr (jsTrim st.searchQuery) then some (jsTrim st.searchQuery)
      else none := by
  have hcq : ("category" : String) ≠ "q" := by decide
  have hsq : ("section" : String) ≠ "q" := by decide
  have htq : ("tag" : String) ≠ "q" := by decide
  unfold updateURLParams paramsGet
  simp only [lookupAssoc_append]
  by_cases h1 : truthyStr (jsTrim st.searchQuery) <;>
    by_cases h2 : truthyOpt st.selectedCategory <;>
    by_cases h3 : truthyOpt st.selectedSection <;>
    by_cases h4 : st.selectedTags.length > 0 <;>
    simp [h1, h2, h3, h4, lookupAssoc, hcq, hsq, htq,
      lookupAssoc_map_const_key]

theorem updateURLParams_get_category (st : FilterState) :
    paramsGet (updateURLParams st) "category" =
      if truthyOpt st.selectedCategory then some (st.selectedCategory.getD "")
      else none := by
  have hqc : ("q" : String) ≠ "category" := by decide
  have hsc : ("section" : String) ≠ "category" := by decide
  have htc : ("tag" : String) ≠ "category" := by decide
  unfold updateURLParams paramsGet
  simp only [lookupAssoc_append]
  by_cases h1 : truthyStr (jsTrim st.searchQuery) <;>
    by_cases h2 : truthyOpt st.selectedCategory <;>
    by_cases h3 : truthyOpt st.selectedSection <;>
    by_cases h4 : st.selectedTags.length > 0 <;>
    simp [h1, h2, h3, h4, lookupAssoc, hqc, hsc, htc,
      lookupAssoc_map_const_key]

theorem updateURLParams_get_section (st : FilterState) :
    paramsGet (updateURLParams st) "section" =
      if truthyOpt st.selectedSection then some (st.selectedSection.getD "")
      else none := by
  have hqs : ("q" : String) ≠ "section" := by decide
  have hcs : ("category" : String) ≠ "section" := by decide
  have hts : ("tag" : String) ≠ "section" := by decide
  unfold updateURLParams paramsGet
  simp only [lookupAssoc_append]
  by_cases h1 : truthyStr (jsTrim st.searchQuery) <;>
    by_cases h2 : truthyOpt st.selectedCategory <;>
    by_cases h3 : truthyOpt st.selectedSection <;>
    by_cases h4 : st.selectedTags.length > 0 <;>
    simp [h1, h2, h3, h4, lookupAssoc, hqs, hcs, hts,
      lookupAssoc_map_const_key]

theorem updateURLParams_getAll_tag (st : FilterState) :
    paramsGetAll (updateURLParams st) "tag" =
      if st.selectedTags.length > 0 then sortStrings st.selectedTags
      else [] := by
  have hqt : ("q" : String) ≠ "tag" := by decide
  have hct : ("category" : String) ≠ "tag" := by decide
  have hst : ("section" : String) ≠ "tag" := by decide
  unfold updateURLParams paramsGetAll
  simp only [List.filterMap_append]
  by_cases h1 : truthyStr (jsTrim st.searchQuery) <;>
    by_cases h2 : truthyOpt st.selectedCategory <;>
    by_cases h3 : truthyOpt st.selectedSection <;>
    by_cases h4 : st.selectedTags.length > 0 <;>
    simp [h1, h2, h3, h4, hqt, hct, hst, getAll_map_const_key,
      filterMap_comp_const_key]

/-! ## Claim C3: URL round-trip of the filter state -/

theorem mk_toList (s : String) : String.mk s.toList = s := by
  cases s
  rfl

theorem splitChar_of_not_mem (c : Char) (l : List Char) (h : c ∉ l) :
    splitChar c l = [l] := by
  induction l with
  | nil => rfl
  | cons a as ih =>
    have hac : ¬ a == c := by
      simp only [beq_iff_eq]
      intro hac
      exact h (hac ▸ List.mem_cons_self a as)
    have htail : c ∉ as := fun hmem => h (List.mem_cons_of_mem a hmem)
    rw [splitChar, if_neg hac, ih htail]

theorem jsSplitComma_of_not_mem (v : String) (h : ',' ∉ v.toList) :
    jsSplitComma v = [v] := by
  rw [jsSplitComma, splitChar_of_not_mem ',' v.toList h]
  simp [mk_toList]

theorem addParsedTag_eq_addSet (acc : List String) (v : String)
    (h1 : v ≠ "") (h2 : v = jsTrim v) : addParsedTag acc v = addSet acc v := by
  unfold addParsedTag
  rw [← h2, if_pos ((truthyStr_iff v).2 h1)]

theorem parseTags_eq_foldl_addSet (values : List String)
    (h : ∀ v ∈ values, v ≠ "" ∧ v = jsTrim v ∧ ',' ∉ v.toList)
    (acc : List String) :
    values.foldl
      (fun acc value => (jsSplitComma value).foldl addParsedTag acc) acc =
      values.foldl addSet acc := by
  induction values generalizing acc with
  | nil => rfl
  | cons v vs ih =>
    obtain ⟨hv1, hv2, hv3⟩ := h v (List.mem_cons_self v vs)
    rw [List.foldl_cons, List.foldl_cons, jsSplitComma_of_not_mem v hv3]
    rw [List.foldl_cons, List.foldl_nil, addParsedTag_eq_addSet acc v hv1 hv2]
    exact ih (fun w hw => h w (List.mem_cons_of_mem v hw)) _

theorem mem_foldl_addSet (values : List String) (acc : List String)
    (t : String) : t ∈ values.foldl addSet acc ↔ t ∈ acc ∨ t ∈ values := by
  induction values generalizing acc with
  | nil => simp
  | cons v vs ih =>
    rw [List.foldl_cons, ih]
    unfold addSet
    by_cases h : v ∈ acc
    · rw [if_pos h]
      simp only [List.mem_cons]
      constructor
      · tauto
      · rintro (ha | rfl | hvs)
        · exact Or.inl ha
        · exact Or.inl h
        · exact Or.inr hvs
    · rw [if_neg h]
      simp only [List.mem_append, List.mem_singleton, List.mem_cons]
      tauto

/-- The state exhibiting the failure of C3 as stated: an empty-string (but
non-null) selected section satisfies the claim's hypotheses, yet it is
dropped by `updateURLParams` (empty strings are falsy) and comes back as
`null`. -/
def roundTripCounterSt : FilterState :=
  { searchQuery := "", selectedTags := [],
    selectedCategory := some "Dev", selectedSection := some "" }

/-- C3 counterexample: `roundTripCounterSt` satisfies every hypothesis of the
claim (query equal to its own trim; no tags; section non-null only while a
category is selected), but the round trip does not restore the same state:
the empty-string section comes back as `null`. -/
theorem urlRoundTrip_counterexample :
    (roundTripCounterSt.searchQuery = jsTrim roundTripCounterSt.searchQuery) ∧
    (∀ t ∈ roundTripCounterSt.selectedTags,
      t ≠ "" ∧ t = jsTrim t ∧ ',' ∉ t.toList) ∧
    (roundTripCounterSt.selectedSection ≠ none →
      roundTripCounterSt.selectedCategory ≠ none) ∧
    applyFiltersFromURL (updateURLParams roundTripCounterSt) ≠
      roundTripCounterSt := by
  refine ⟨rfl, by simp [roundTripCounterSt], fun _ => by simp [roundTripCounterSt], ?_⟩
  decide

/-- C3 (amended): additionally requiring that a selected category or section
is never the empty string — which `updateURLParams`'s truthiness checks
silently drop — the round trip through the URL restores the search query,
the selected category, the selected section, and the selected tag set. -/
theorem urlRoundTrip_amended (st : FilterState)
    (h1 : st.searchQuery = jsTrim st.searchQuery)
    (h2 : ∀ t ∈ st.selectedTags, t ≠ "" ∧ t = jsTrim t ∧ ',' ∉ t.toList)
    (h3 : st.selectedSection ≠ none → st.selectedCategory ≠ none)
    (h4 : st.selectedCategory ≠ some "")
    (h5 : st.selectedSection ≠ some "") :
    (applyFiltersFromURL (updateURLParams st)).searchQuery = st.searchQuery ∧
    (applyFiltersFromURL (updateURLParams st)).selectedCategory =
      st.selectedCategory ∧
    (applyFiltersFromURL (updateURLParams st)).selectedSection =
      st.selectedSection ∧
    ∀ t : String,
      t ∈ (applyFiltersFromURL (updateURLParams st)).selectedTags ↔
        t ∈ st.selectedTags := by
  have hcat : jsOrNull (paramsGet (updateURLParams st) "category") =
      st.selectedCategory := by
    rw [updateURLParams_get_category]
    cases hc : st.selectedCategory with
    | none => simp [truthyOpt, jsOrNull]
    | some c =>
      have hcne : c ≠ "" := fun hce => h4 (by rw [hc, hce])
      simp [truthyOpt, truthyStr, hcne, jsOrNull]
  have hsec0 : jsOrNull (paramsGet (updateURLParams st) "section") =
      st.selectedSection := by
    rw [updateURLParams_get_section]
    cases hs : st.selectedSection with
    | none => simp [truthyOpt, jsOrNull]
    | some s =>
      have hsne : s ≠ "" := fun hse => h5 (by rw [hs, hse])
      simp [truthyOpt, truthyStr, hsne, jsOrNull]
  have hquery : jsOrStr (paramsGet (updateURLParams st) "q") "" =
      st.searchQuery := by
    rw [updateURLParams_get_q]
    by_cases hq : truthyStr (jsTrim st.searchQuery)
    · rw [if_pos hq]
      simp only [jsOrStr, truthyOpt]
      rw [if_pos hq]
      simp only [Option.getD_some]
      exact h1.symm
    · rw [if_neg hq]
      have hz : jsTrim st.searchQuery = "" := by
        by_contra hne
        exact hq ((truthyStr_iff _).2 hne)
      rw [h1, hz]
      rfl
  have htags : ∀ t : String,
      t ∈ (paramsGetAll (updateURLParams st) "tag").foldl
        (fun acc value => (jsSplitComma value).foldl addParsedTag acc) [] ↔
      t ∈ st.selectedTags := by
    intro t
    rw [updateURLParams_getAll_tag]
    by_cases hn : st.selectedTags.length > 0
    · rw [if_pos hn]
      have hsorted : ∀ v ∈ sortStrings st.selectedTags,
          v ≠ "" ∧ v = jsTrim v ∧ ',' ∉ v.toList := by
        intro v hv
        exact h2 v ((mem_sortBy strLe st.selectedTags v).1 hv)
      rw [parseTags_eq_foldl_addSet _ hsorted]
      rw [mem_foldl_addSet]
      simp only [List.not_mem_nil, false_or]
      exact mem_sortBy strLe st.selectedTags t
    · rw [if_neg hn]
      have h0 : st.selectedTags.length = 0 := by omega
      have hnil : st.selectedTags = [] := List.length_eq_zero.1 h0
      simp [hnil]
  refine ⟨?_, ?_, ?_, ?_⟩
  · simpa [applyFiltersFromURL] using hquery
  · simpa [applyFiltersFromURL] using hcat
  · show (if truthyOpt (jsOrNull (paramsGet (updateURLParams st) "section")) &&
        !truthyOpt (jsOrNull (paramsGet (updateURLParams st) "category"))
      then none else jsOrNull (paramsGet (updateURLParams st) "section")) =
        st.selectedSection
    rw [hcat, hsec0]
    cases hs : st.selectedSection with
    | none => simp [truthyOpt]
    | some s =>
      have hc : st.selectedCategory ≠ none := h3 (by rw [hs]; exact fun h => Option.noConfusion h)
      cases hcc : st.selectedCategory with
      | none => exact absurd hcc hc
      | some c =>
        have hcne : c ≠ "" := fun hce => h4 (by rw [hcc, hce])
        simp [truthyOpt, truthyStr, hcne]
  · intro t
    simpa [applyFiltersFromURL] using htags t

/-- Witness for the amended C3 at a concrete input. -/
theorem urlRoundTrip_amended_witness :
    (applyFiltersFromURL (updateURLParams
        { searchQuery := "lean", selectedTags := ["dev", "web"],
          selectedCategory := some "Dev",
          selectedSection := some "Tools" })).selectedSection = some "Tools" :=
  (urlRoundTrip_amended
      { searchQuery := "lean", selectedTags := ["dev", "web"],
        selectedCategory := some "Dev", selectedSection := some "Tools" }
      (by decide) (by decide) (fun _ => by decide) (by decide)
      (by decide)).2.2.1

/-! ## Claim C4: the "section implies category" invariant -/

/-- `selectCategory(category)` from `app.js`, state change only: clicking
"all" or the already-selected category resets both; otherwise the category is
selected and the section reset. -/
def selectCategory (category : String) (st : FilterState) : FilterState :=
  if category = "all" || st.selectedCategory == some category then
    { st with selectedCategory := none, selectedSection := none }
  else
    { st with selectedCategory := some category, selectedSection := none }

/-- `selectSection(section)` from `app.js`, state change only: toggles the
selected section.  Note it does not itself check that a category is
selected. -/
def selectSection (sec : String) (st : FilterState) : FilterState :=
  if st.selectedSection == some sec then
    { st with selectedSection := none }
  else
    { st with selectedSection := some sec }

/-- `clearFilters()` from `app.js`, state change only. -/
def clearFilters (st : FilterState) : FilterState :=
  { st with
      selectedTags := [],
      selectedCategory := none,
      selectedSection := none,
      searchQuery := "" }

/-- The four state-updating operations named by the claim. -/
inductive FilterOp where
  | fromURL (params : List (String × String))
  | selCat (category : String)
  | selSec (sec : String)
  | clear
  deriving Repr

def applyOp : FilterOp → FilterState → FilterState
  | .fromURL params, _ => applyFiltersFromURL params
  | .selCat c, st => selectCategory c st
  | .selSec s, st => selectSection s st
  | .clear, st => clearFilters st

def applyOps (ops : List FilterOp) (st : FilterState) : FilterState :=
  ops.foldl (fun st op => applyOp op st) st

/-- The invariant of the claim: `selectedSection` is non-null only when
`selectedCategory` is non-null. -/
def sectionImpliesCategory (st : FilterState) : Bool :=
  st.selectedSection.isNone || st.selectedCategory.isSome

/-- The UI's guard: section pills are only rendered (and hence
`selectSection` only invoked) while a category is selected. -/
def guardOk : FilterOp → FilterState → Bool
  | .selSec _, st => st.selectedCategory.isSome
  | _, _ => true

/-- A run of operations in which every `selectSection` happens while a
category is selected, as the UI guarantees. -/
def guardedFrom (st : FilterState) : List FilterOp → Bool
  | [] => true
  | op :: ops => guardOk op st && guardedFrom (applyOp op st) ops

/-- C4 counterexample: the bare operation sequence `[selectSection "Tools"]`
from the initial state — nothing in `selectSection` itself checks for a
selected category — leaves `selectedSection` non-null while
`selectedCategory` is null. -/
theorem sectionImpliesCategory_counterexample :
    sectionImpliesCategory
      (applyOps [FilterOp.selSec "Tools"] initialState) = false := by
  decide

theorem jsOrNull_some {o : Option String} {s : String}
    (h : jsOrNull o = some s) : truthyStr s = true := by
  unfold jsOrNull at h
  by_cases ht : truthyOpt o
  · rw [if_pos ht] at h
    rw [h] at ht
    exact ht
  · rw [if_neg ht] at h
    exact Option.noConfusion h

theorem jsOrNull_eq_none_of_not_truthy {o : Option String}
    (h : truthyOpt (jsOrNull o) = false) : jsOrNull o = none := by
  cases ho : jsOrNull o with
  | none => rfl
  | some s =>
    rw [ho] at h
    have := jsOrNull_some ho
    rw [show truthyOpt (some s) = truthyStr s from rfl, this] at h
    exact Bool.noConfusion h

theorem sectionImpliesCategory_applyFiltersFromURL
    (params : List (String × String)) :
    sectionImpliesCategory (applyFiltersFromURL params) = true := by
  simp only [applyFiltersFromURL, sectionImpliesCategory]
  by_cases hs : truthyOpt (jsOrNull (paramsGet params "section")) <;>
    by_cases hc : truthyOpt (jsOrNull (paramsGet params "category"))
  · cases hcc : jsOrNull (paramsGet params "category") with
    | none =>
      rw [hcc] at hc
      simp [truthyOpt] at hc
    | some c => simp [hs, hc, hcc]
  · simp [hs, hc]
  · rw [jsOrNull_eq_none_of_not_truthy (Bool.of_not_eq_true hs)]
    simp [hs]
  · rw [jsOrNull_eq_none_of_not_truthy (Bool.of_not_eq_true hs)]
    simp [hs]

theorem sectionImpliesCategory_selectCategory (c : String) (st : FilterState) :
    sectionImpliesCategory (selectCategory c st) = true := by
  unfold selectCategory sectionImpliesCategory
  split <;> simp

theorem sectionImpliesCategory_selectSection (s : String) (st : FilterState)
    (h : st.selectedCategory.isSome = true) :
    sectionImpliesCategory (selectSection s st) = true := by
  unfold selectSection sectionImpliesCategory
  split <;> simp [h]

theorem sectionImpliesCategory_clearFilters (st : FilterState) :
    sectionImpliesCategory (clearFilters st) = true := by
  simp [clearFilters, sectionImpliesCategory]

/-- C4 (amended): the invariant "selectedSection non-null only when
selectedCategory non-null" holds after every sequence of
`applyFiltersFromURL`, `selectCategory`, `selectSection` and `clearFilters`
from the initial state, provided each `selectSection` is invoked while a
category is selected — the discipline the UI enforces, since section pills
are only rendered when a category is selected.  (Without that proviso the
claim fails, see the counterexample.) -/
theorem sectionImpliesCategory_invariant (ops : List FilterOp)
    (h : guardedFrom initialState ops = true) :
    sectionImpliesCategory (applyOps ops initialState) = true := by
  suffices hgen : ∀ st : FilterState, sectionImpliesCategory st = true →
      guardedFrom st ops = true →
      sectionImpliesCategory (applyOps ops st) = true by
    exact hgen initialState rfl h
  clear h
  induction ops with
  | nil =>
    intro st hst _
    exact hst
  | cons op rest ih =>
    intro st hst hg
    rw [guardedFrom, Bool.and_eq_true] at hg
    obtain ⟨hg1, hg2⟩ := hg
    show sectionImpliesCategory (applyOps rest (applyOp op st)) = true
    refine ih (applyOp op st) ?_ hg2
    cases op with
    | fromURL params => exact sectionImpliesCategory_applyFiltersFromURL params
    | selCat c => exact sectionImpliesCategory_selectCategory c st
    | selSec s => exact sectionImpliesCategory_selectSection s st hg1
    | clear => exact sectionImpliesCategory_clearFilters st

/-- Witness for the amended C4 at a concrete guarded operation sequence. -/
theorem sectionImpliesCategory_invariant_witness :
    sectionImpliesCategory (applyOps
      [FilterOp.selCat "Dev", FilterOp.selSec "Tools"] initialState) = true :=
  sectionImpliesCategory_invariant
    [FilterOp.selCat "Dev", FilterOp.selSec "Tools"] (by decide)

/-! ## Claim C7: failure handling -/

/-- The observable side effects of `loadBookmarks`. -/
inductive LoadEffect where
  | consoleError (msg : String)
  | render
  | setupEventListeners
  deriving DecidableEq, Repr

/-- The mutable state touched by `loadBookmarks`: the module-level bookmark
list together with the filter state. -/
structure AppState where
  bookmarks : List Bookmark
  filters : FilterState
  deriving DecidableEq, Repr

/-- `loadBookmarks()` from `app.js`.  The combined outcome of
`fetch('bookmarks.json')` and `response.json()` is the `Except` argument: on
success the bookmark list is replaced, the URL filters applied and the page
rendered and wired; a rejection anywhere in the `try` block reaches the
`catch`, which only logs, before any assignment has happened. -/
def loadBookmarks (result : Except String (List Bookmark))
    (urlParams : List (String × String)) (st : AppState) :
    AppState × List LoadEffect :=
  match result with
  | .ok data =>
    ({ bookmarks := data, filters := applyFiltersFromURL urlParams },
      [LoadEffect.render, LoadEffect.setupEventListeners])
  | .error msg => (st, [LoadEffect.consoleError msg])

/-- The clipboard effects of `copyLink`. -/
inductive ClipEffect where
  | writeRich
  | writeText
  deriving DecidableEq, Repr

/-- `copyLink(url, title)` from `app.js` (lines 237-254): it attempts the
rich `navigator.clipboard.write`; when that throws, the `catch` branch falls
back to `navigator.clipboard.writeText` and the function still returns
`true`. -/
def copyLink (writeResult : Except Unit Unit) : Bool × List ClipEffect :=
  match writeResult with
  | .ok _ => (true, [ClipEffect.writeRich])
  | .error _ => (true, [ClipEffect.writeRich, ClipEffect.writeText])

/-- C7 counterexample: the claim's "the only failure handling is for the
initial data load" is refuted by `copyLink`, which also handles a failure —
its `catch` consumes a clipboard-write rejection and recovers with a
fallback write instead of propagating it. -/
theorem copyLink_handles_failure :
    copyLink (Except.error ()) =
      (true, [ClipEffect.writeRich, ClipEffect.writeText]) := rfl

/-- C7 (amended): apart from the clipboard fallback in `copyLink`, failure
handling is confined to the initial data load: when the fetch or JSON parse
fails, `loadBookmarks` catches the error and only logs it; the bookmark list
and every piece of filter state are unchanged and neither rendering nor
event-listener setup occurs. -/
theorem loadBookmarks_error_atomic (msg : String)
    (urlParams : List (String × String)) (st : AppState) :
    loadBookmarks (Except.error msg) urlParams st =
      (st, [LoadEffect.consoleError msg]) := rfl

/-! ## Claim C10: `escapeRegex` and `highlightMatch`

The pattern `highlightMatch` hands to `new RegExp` is `'(' + escapeRegex(query) + ')'`
with flags `gi`.  JavaScript regex compilation is modelled on exactly the
fragment such patterns live in: one group wrapping a sequence of literal
atoms, an atom being a backslash-escaped metacharacter or a plain
non-metacharacter; anything else is modelled as a failed compile (`none`,
i.e. a thrown SyntaxError).  `String.prototype.replace` with a global,
case-insensitive literal pattern is modelled by the standard left-to-right
non-overlapping scan (an empty pattern matches at every position, including
the end, and advances by one). -/

/-- The characters `escapeRegex` escapes: dot, star, plus, question mark,
caret, dollar, the two curly braces (code points 123 and 125), parentheses,
pipe, the square brackets and backslash. -/
def isRegexMeta (c : Char) : Bool :=
  c == '.' || c == '*' || c == '+' || c == '?' || c == '^' || c == '$' ||
  c == Char.ofNat 123 || c == Char.ofNat 125 || c == '(' || c == ')' ||
  c == '|' || c == '[' || c == ']' || c == '\\'

/-- `string.replace(metacharacter-class, backslash-escape)` on character
lists. -/
def escapeChars : List Char → List Char
  | [] => []
  | c :: rest =>
    if isRegexMeta c then '\\' :: c :: escapeChars rest
    else c :: escapeChars rest

/-- `escapeRegex(string)` from `app.js`. -/
def escapeRegex (s : String) : String := String.mk (escapeChars s.toList)

/-- Parse a pattern fragment consisting only of literal atoms, returning the
literal character sequence it matches; `none` for anything outside the
fragment (unescaped metacharacter, trailing backslash, non-meta escape). -/
def parseLiteralRegex : List Char → Option (List Char)
  | [] => some []
  | c :: rest =>
    if c == '\\' then
      match rest with
      | [] => none
      | d :: rest2 =>
        if isRegexMeta d then (parseLiteralRegex rest2).map (fun l => d :: l)
        else none
    else if isRegexMeta c then none
    else (parseLiteralRegex rest).map (fun l => c :: l)

theorem parseLiteralRegex_escapeChars (l : List Char) :
    parseLiteralRegex (escapeChars l) = some l := by
  induction l with
  | nil => rfl
  | cons c rest ih =>
    by_cases h : isRegexMeta c
    · rw [escapeChars, if_pos h]
      rw [parseLiteralRegex.eq_def]
      simp [h, ih]
    · rw [escapeChars, if_neg h]
      rw [parseLiteralRegex.eq_def]
      have hc : ¬ (c == '\\') = true := by
        intro hb
        rw [beq_iff_eq] at hb
        subst hb
        simp [isRegexMeta] at h
      simp [hc, h, ih]

theorem toList_append (a b : String) : (a ++ b).toList = a.toList ++ b.toList := by
  cases a
  cases b
  rfl

/-- Compilation of `new RegExp('(' + fragment + ')')`: strip the surrounding
group and parse the body as a literal fragment. -/
def compileGroupPattern (pattern : String) : Option (List Char) :=
  match pattern.toList with
  | [] => none
  | c :: rest =>
    if c == '(' && rest.getLast? == some ')' then
      parseLiteralRegex rest.dropLast
    else none

theorem compileGroupPattern_escapeRegex (q : String) :
    compileGroupPattern ("(" ++ escapeRegex q ++ ")") = some q.toList := by
  have hl : ("(" ++ escapeRegex q ++ ")").toList =
      '(' :: (escapeChars q.toList ++ [')']) := by
    rw [toList_append, toList_append]
    rfl
  rw [compileGroupPattern, hl]
  simp only [List.getLast?_concat, List.dropLast_concat, beq_self_eq_true,
    Bool.and_self, if_true]
  exact parseLiteralRegex_escapeChars q.toList

/-- Case-insensitive prefix test (the `i` flag lowers both sides). -/
def ciStartsWith : List Char → List Char → Bool
  | [], _ => true
  | _ :: _, [] => false
  | a :: as, b :: bs => (a.toLower == b.toLower) && ciStartsWith as bs

/-- The replacement `<mark>$1</mark>` applied to a matched slice. -/
def markTags (m : List Char) : List Char :=
  ("<mark>".toList) ++ m ++ ("</mark>".toList)

/-- Fuelled scan of `text.replace(/(lit)/gi, '<mark>$1</mark>')`; the fuel is
only a structural-recursion device, `text.length + 1` always suffices. -/
def hmGoFuel : Nat → List Char → List Char → List Char
  | 0, _, _ => []
  | _ + 1, q, [] => if q.isEmpty then markTags [] else []
  | fuel + 1, q, c :: rest =>
    if q.isEmpty then markTags [] ++ c :: hmGoFuel fuel q rest
    else if ciStartsWith q (c :: rest) then
      markTags ((c :: rest).take q.length) ++
        hmGoFuel fuel q ((c :: rest).drop q.length)
    else c :: hmGoFuel fuel q rest

/-- The global case-insensitive literal replace scan. -/
def hmGo (q t : List Char) : List Char := hmGoFuel (t.length + 1) q t

theorem hmGoFuel_congr (q : List Char) :
    ∀ (fuel1 fuel2 : Nat) (t : List Char), t.length < fuel1 →
      t.length < fuel2 → hmGoFuel fuel1 q t = hmGoFuel fuel2 q t := by
  intro fuel1
  induction fuel1 with
  | zero =>
    intro fuel2 t h1 _
    omega
  | succ f1 ih =>
    intro fuel2 t h1 h2
    cases fuel2 with
    | zero => omega
    | succ f2 =>
      cases t with
      | nil => rfl
      | cons c rest =>
        have hrest : rest.length < f1 := by
          simp at h1
          omega
        have hrest2 : rest.length < f2 := by
          simp at h2
          omega
        rw [hmGoFuel, hmGoFuel]
        by_cases hq : q.isEmpty
        · rw [if_pos hq, if_pos hq, ih f2 rest hrest hrest2]
        · rw [if_neg hq, if_neg hq]
          by_cases hs : ciStartsWith q (c :: rest)
          · rw [if_pos hs, if_pos hs]
            have hqlen : 0 < q.length := by
              cases q with
              | nil => simp [List.isEmpty] at hq
              | cons a as => simp
            have hdrop : ((c :: rest).drop q.length).length < f1 := by
              rw [List.length_drop]
              simp only [List.length_cons]
              omega
            have hdrop2 : ((c :: rest).drop q.length).length < f2 := by
              rw [List.length_drop]
              simp only [List.length_cons]
              omega
            rw [ih f2 _ hdrop hdrop2]
          · rw [if_neg hs, if_neg hs, ih f2 rest hrest hrest2]

theorem hmGo_nil (q : List Char) :
    hmGo q [] = if q.isEmpty then markTags [] else [] := rfl

theorem hmGo_cons (q : List Char) (c : Char) (rest : List Char) :
    hmGo q (c :: rest) =
      if q.isEmpty then markTags [] ++ c :: hmGo q rest
      else if ciStartsWith q (c :: rest) then
        markTags ((c :: rest).take q.length) ++
          hmGo q ((c :: rest).drop q.length)
      else c :: hmGo q rest := by
  show hmGoFuel ((c :: rest).length + 1) q (c :: rest) = _
  rw [show (c :: rest).length + 1 = rest.length + 1 + 1 from by simp]
  rw [hmGoFuel]
  by_cases hq : q.isEmpty
  · rw [if_pos hq, if_pos hq]
    rfl
  · rw [if_neg hq, if_neg hq]
    by_cases hs : ciStartsWith q (c :: rest)
    · rw [if_pos hs, if_pos hs]
      have hqlen : 0 < q.length := by
        cases q with
        | nil => simp [List.isEmpty] at hq
        | cons a as => simp
      have hb1 : ((c :: rest).drop q.length).length < rest.length + 1 := by
        rw [List.length_drop]
        simp only [List.length_cons]
        omega
      rw [hmGoFuel_congr q (rest.length + 1) (((c :: rest).drop q.length).length + 1)
        ((c :: rest).drop q.length) hb1 (Nat.lt_succ_self _)]
      rfl
    · rw [if_neg hs, if_neg hs]
      rfl

/-- Is there a case-insensitive occurrence of `q` starting at some position
of `t` (including the final empty position)? -/
def occursCI (q : List Char) : List Char → Bool
  | [] => ciStartsWith q []
  | t@(_ :: rest) => ciStartsWith q t || occursCI q rest

/-- Number of case-insensitive occurrence positions of `q` in `t`. -/
def countOccCI (q : List Char) : List Char → Nat
  | [] => if ciStartsWith q [] then 1 else 0
  | t@(_ :: rest) => (if ciStartsWith q t then 1 else 0) + countOccCI q rest

/-- Number of (case-sensitive) occurrence positions of `p` in `t`, used to
count the `<mark>` openings in an output. -/
def countSubOcc (p : List Char) : List Char → Nat
  | [] => if startsWithChars p [] then 1 else 0
  | t@(_ :: rest) => (if startsWithChars p t then 1 else 0) + countSubOcc p rest

/-- `highlightMatch(text, query)` from `app.js`:
`text.replace(new RegExp('(' + escapeRegex(query) + ')', 'gi'), '<mark>$1</mark>')`,
where `none` models a thrown SyntaxError from `new RegExp`. -/
def highlightMatch (text query : String) : Option String :=
  (compileGroupPattern ("(" ++ escapeRegex query ++ ")")).map
    (fun lit => String.mk (hmGo lit text.toList))

theorem hmGo_of_not_occurs {q : List Char} :
    ∀ {t : List Char}, occursCI q t = false → hmGo q t = t := by
  intro t
  induction t with
  | nil =>
    intro h
    rw [occursCI] at h
    rw [hmGo_nil]
    cases q with
    | nil => simp [ciStartsWith] at h
    | cons a as => rfl
  | cons c rest ih =>
    intro h
    rw [occursCI, Bool.or_eq_false_iff] at h
    obtain ⟨h1, h2⟩ := h
    have hq : ¬ q.isEmpty = true := by
      cases q with
      | nil => simp [ciStartsWith] at h1
      | cons a as => simp [List.isEmpty]
    rw [hmGo_cons, if_neg hq, if_neg (by rw [h1]; exact Bool.false_ne_true)]
    rw [ih h2]

/-- C10 counterexample: with text `"aaa"` and query `"aa"` there are two
(overlapping) case-insensitive occurrences of the query, but the output of
`highlightMatch` contains a single `<mark>` — the occurrence starting at
index 1 is not wrapped, so the claim's "every case-insensitive occurrence of
the query wrapped in mark tags" fails at this input. -/
theorem highlightMatch_counterexample :
    highlightMatch "aaa" "aa" = some "<mark>aa</mark>a" ∧
    countOccCI ("aa".toList) ("aaa".toList) = 2 ∧
    countSubOcc ("<mark>".toList) ("<mark>aa</mark>a".toList) = 1 := by
  refine ⟨?_, by decide, by decide⟩
  decide

/-- C10 (amended): `highlightMatch` is total and safe for every pair of
strings: the pattern built from `escapeRegex` always compiles, as a group
matching exactly the literal query (so `highlightMatch` never throws and
equals the left-to-right non-overlapping global case-insensitive replace
scan), and when the query has no case-insensitive occurrence in the text the
text is returned unchanged. -/
theorem highlightMatch_spec (text query : String) :
    compileGroupPattern ("(" ++ escapeRegex query ++ ")") = some query.toList ∧
    highlightMatch text query =
      some (String.mk (hmGo query.toList text.toList)) ∧
    (occursCI query.toList text.toList = false →
      highlightMatch text query = some text) := by
  have hc := compileGroupPattern_escapeRegex query
  refine ⟨hc, ?_, ?_⟩
  · rw [highlightMatch, hc]
    rfl
  · intro hocc
    rw [highlightMatch, hc]
    show some (String.mk (hmGo query.toList text.toList)) = some text
    rw [hmGo_of_not_occurs hocc, mk_toList]

/-- Witness for the amended C10 at a concrete input. -/
theorem highlightMatch_spec_witness :
    highlightMatch "hello" "xyz" = some "hello" :=
  (highlightMatch_spec "hello" "xyz").2.2 (by decide)

end BookmarksApp
